import Mathlib

/-!
Verification development for the RAG chatbot repository
(`rag-chatbot/src/rag_pipeline.py` and `rag-chatbot/src/rag_pipeline_single_url.py`).

Texts are modelled as `List Char`.  The chunking algorithm is the one the two
pipelines actually run: langchain's `RecursiveCharacterTextSplitter` with
`separators=["\n\n", "\n", " ", ""]`, `keep_separator=True` (the class default),
`strip_whitespace=True` (the base-class default), `length_function=len`, and the
base-class constructor check `chunk_overlap > chunk_size -> ValueError`.  The
splitter's recursion on the separator list is embedded with explicit fuel; the
fuel is set to the separator-list length, which bounds the real recursion depth,
so the fuel-exhausted fallback is never reached on the actual separator list.
-/

namespace RagRepo

/-- Boolean test that `p` is an initial segment of `l` (Python `re` matching a
literal escaped pattern at position 0, used for locating separator occurrences). -/
def startsWith : List Char → List Char → Bool
  | [], _ => true
  | _ :: _, [] => false
  | a :: as, b :: bs => a == b && startsWith as bs

/-- Occurrence test: the literal separator `s` occurs somewhere in `text`
(Python `re.search(re.escape(s), text)`). -/
def occursIn (s : List Char) (text : List Char) : Bool :=
  match text with
  | [] => s.isEmpty
  | _ :: rest => startsWith s text || occursIn s rest

/-- Fuelled splitting of `text` on the literal separator `sep`, scanning left to
right with non-overlapping matches (Python `re.split(re.escape(sep), text)`).
The fuel only needs to exceed `text.length`; the fuel-exhausted branch is
unreachable at the call in `splitOnList`. -/
def splitOnListF (sep : List Char) : Nat → List Char → List (List Char)
  | 0, text => [text]
  | _ + 1, [] => [[]]
  | fuel + 1, c :: rest =>
    if !sep.isEmpty && startsWith sep (c :: rest) then
      [] :: splitOnListF sep fuel ((c :: rest).drop sep.length)
    else
      match splitOnListF sep fuel rest with
      | [] => [[c]]
      | p :: ps => (c :: p) :: ps

/-- Splitting of `text` on the literal separator `sep` (Python
`re.split(re.escape(sep), text)` for a non-empty `sep`). -/
def splitOnList (sep text : List Char) : List (List Char) :=
  splitOnListF sep (text.length + 1) text

/-- Reassembling the parts produced by `splitOnList`: first part, then each
further part with the separator re-attached in front.  Used to state that
splitting loses no characters. -/
def glueSep (sep : List Char) : List (List Char) → List Char
  | [] => []
  | p :: ps => p ++ (ps.map (fun q => sep ++ q)).flatten

/-- Models `_split_text_with_regex(text, separator, keep_separator=True)` from
`langchain_text_splitters.character`: split on the separator keeping it attached
to the front of the following piece, then drop empty pieces; for the empty
separator the text is exploded into single characters. -/
def splitTextWithRegex (sep : List Char) (text : List Char) : List (List Char) :=
  if sep.isEmpty then
    (text.map (fun c => [c])).filter (fun p => !p.isEmpty)
  else
    (match splitOnList sep text with
     | [] => []
     | p :: ps => p :: ps.map (fun q => sep ++ q)).filter (fun p => !p.isEmpty)

/-- Python `str.strip()`: drop whitespace from both ends. -/
def stripList (l : List Char) : List Char :=
  (((l.dropWhile Char.isWhitespace).reverse.dropWhile Char.isWhitespace).reverse)

/-- Models `TextSplitter._join_docs(docs, separator="")` with
`strip_whitespace=True`: concatenate the pieces, strip, and drop the result when
it is empty. -/
def joinDocsK (docs : List (List Char)) : Option (List Char) :=
  let text := stripList docs.flatten
  if text.isEmpty then none else some text

/-- List form of an `Option` chunk: the emitted chunk, or nothing. -/
def optJoin (docs : List (List Char)) : List (List Char) :=
  match joinDocsK docs with
  | some d => [d]
  | none => []

/-- Models the pop loop of `TextSplitter._merge_splits` (separator `""`, so the
separator length is 0): while the running total exceeds the overlap, or adding
the next piece would exceed the chunk size while the buffer is non-empty, drop
pieces from the front of the buffer.  `lend` is the length of the next piece. -/
def popWhile (size ov lend : Nat) : List (List Char) → Nat → List (List Char) × Nat
  | [], total => ([], total)
  | c :: rest, total =>
    if total > ov ∨ (total + lend > size ∧ total > 0) then
      popWhile size ov lend rest (total - c.length)
    else
      (c :: rest, total)

/-- Models the main loop of `TextSplitter._merge_splits` with separator `""`:
pieces are accumulated into `cur` (with `total` the tracked length) and flushed
into a chunk whenever the next piece would push the total over `size`; after a
flush, the front of the buffer is popped down to the overlap budget so the next
chunk starts with the retained tail of the previous one. -/
def goMerge (size ov : Nat) : List (List Char) → List (List Char) → List (List Char) → Nat → List (List Char)
  | [], docs, cur, _ => docs ++ optJoin cur
  | d :: rest, docs, cur, total =>
    if total + d.length > size then
      if cur.isEmpty then
        goMerge size ov rest docs (cur ++ [d]) (total + d.length)
      else
        let docs' := docs ++ optJoin cur
        let pt := popWhile size ov d.length cur total
        goMerge size ov rest docs' (pt.1 ++ [d]) (pt.2 + d.length)
    else
      goMerge size ov rest docs (cur ++ [d]) (total + d.length)

/-- Models `TextSplitter._merge_splits(splits, separator="")`. -/
def mergeSplits (size ov : Nat) (splits : List (List Char)) : List (List Char) :=
  goMerge size ov splits [] [] 0

/-- Models the separator-selection loop at the top of
`RecursiveCharacterTextSplitter._split_text`: pick the first separator that is
empty or occurs in the text (default: the last separator), together with the
remaining separators used for recursive splitting. -/
def chooseSep (text : List Char) : List (List Char) → List Char × List (List Char)
  | [] => ([], [])
  | s :: rest =>
    if s.isEmpty then ([], [])
    else if occursIn s text then (s, rest)
    else
      match rest with
      | [] => (s, [])
      | _ :: _ => chooseSep text rest

/-- Models the piece-processing loop of
`RecursiveCharacterTextSplitter._split_text`: pieces shorter than `size` are
accumulated in `good` and merged into chunks; an oversized piece first flushes
the accumulated pieces, then is either emitted whole (no separators left) or
split recursively via `recur`. -/
def goProcess (size ov : Nat) (noSeps : Bool) (recur : List Char → List (List Char)) :
    List (List Char) → List (List Char) → List (List Char)
  | [], good => if good.isEmpty then [] else mergeSplits size ov good
  | s :: rest, good =>
    if s.length < size then
      goProcess size ov noSeps recur rest (good ++ [s])
    else
      (if good.isEmpty then [] else mergeSplits size ov good)
        ++ (if noSeps then [s] else recur s)
        ++ goProcess size ov noSeps recur rest []

/-- Models `RecursiveCharacterTextSplitter._split_text(text, separators)`, with
fuel bounding the recursion depth on the separator list (each recursive call
uses a strict suffix of the separators, so fuel `separators.length` suffices and
the fuel-exhausted branch is unreachable from `split_text`). -/
def splitTextFuel (size ov : Nat) : Nat → List (List Char) → List Char → List (List Char)
  | 0, _, text => [text]
  | fuel + 1, seps, text =>
    let sc := chooseSep text seps
    goProcess size ov sc.2.isEmpty (splitTextFuel size ov fuel sc.2)
      (splitTextWithRegex sc.1 text) []

/-- Separators passed to `RecursiveCharacterTextSplitter` at both call sites:
`["\n\n", "\n", " ", ""]`. -/
def default_separators : List (List Char) :=
  [['\n', '\n'], ['\n'], [' '], []]

/-- Models `RecursiveCharacterTextSplitter.split_text` as configured by both
pipelines: `_split_text(text, ["\n\n", "\n", " ", ""])`. -/
def split_text (size ov : Nat) (text : List Char) : List (List Char) :=
  splitTextFuel size ov default_separators.length default_separators text

/-- Models `TextSplitter.split_documents` / `create_documents`: chunk each
document's text in order and concatenate the per-document chunk lists. -/
def split_documents (size ov : Nat) (docs : List (List Char)) : List (List Char) :=
  (docs.map (split_text size ov)).flatten

lemma startsWith_append (p : List Char) : ∀ l : List Char,
    startsWith p l = true → p ++ l.drop p.length = l := by
  induction p with
  | nil => intro l _; simp
  | cons a as ih =>
    intro l h
    cases l with
    | nil => simp [startsWith] at h
    | cons b bs =>
      simp only [startsWith, Bool.and_eq_true, beq_iff_eq] at h
      simp only [List.length_cons, List.drop_succ_cons, List.cons_append, h.1]
      exact congrArg (b :: ·) (ih bs h.2)

lemma splitOnListF_ne_nil (sep : List Char) (fuel : Nat) (text : List Char) :
    splitOnListF sep fuel text ≠ [] := by
  match fuel, text with
  | 0, text => simp [splitOnListF]
  | fuel + 1, [] => simp [splitOnListF]
  | fuel + 1, c :: rest =>
    rw [splitOnListF]
    split
    · simp
    · split <;> simp

lemma glueSep_cons_ne (sep : List Char) (ps : List (List Char)) (h : ps ≠ []) :
    (ps.map (fun q => sep ++ q)).flatten = sep ++ glueSep sep ps := by
  cases ps with
  | nil => exact absurd rfl h
  | cons p ps' => simp [glueSep, List.append_assoc]

lemma glue_splitOnListF (sep : List Char) (hsep : sep ≠ []) :
    ∀ fuel text, text.length < fuel →
      glueSep sep (splitOnListF sep fuel text) = text := by
  intro fuel
  induction fuel with
  | zero => intro text h; omega
  | succ fuel ih =>
    intro text h
    cases text with
    | nil => simp [splitOnListF, glueSep]
    | cons c rest =>
      rw [splitOnListF]
      by_cases hsw : startsWith sep (c :: rest) = true
      · have hne : (!sep.isEmpty && startsWith sep (c :: rest)) = true := by
          simp [hsw, List.isEmpty_iff, hsep]
        rw [if_pos hne]
        have hlen : ((c :: rest).drop sep.length).length < fuel := by
          have h1 : 1 ≤ sep.length := by
            cases sep with
            | nil => exact absurd rfl hsep
            | cons _ _ => simp
          have h2 : rest.length + 1 < fuel + 1 := by
            simpa using h
          simp only [List.length_drop, List.length_cons]
          omega
        have hrec := ih _ hlen
        rw [glueSep, glueSep_cons_ne sep _ (splitOnListF_ne_nil sep fuel _)]
        rw [hrec, List.nil_append]
        exact startsWith_append sep _ hsw
      · have hne : (!sep.isEmpty && startsWith sep (c :: rest)) = false := by
          simp [hsw]
        rw [if_neg (by simp [hne])]
        have hlen : rest.length < fuel := by
          simp only [List.length_cons] at h; omega
        have hrec := ih rest hlen
        cases heq : splitOnListF sep fuel rest with
        | nil => exact absurd heq (splitOnListF_ne_nil sep fuel rest)
        | cons p ps =>
          rw [heq] at hrec
          simp only [glueSep, List.cons_append] at hrec ⊢
          exact congrArg (c :: ·) hrec

lemma glue_splitOnList (sep text : List Char) (hsep : sep ≠ []) :
    glueSep sep (splitOnList sep text) = text :=
  glue_splitOnListF sep hsep _ text (Nat.lt_succ_self _)

lemma flatten_filter_ne_nil (l : List (List Char)) :
    ((l.filter (fun p => !p.isEmpty)).flatten) = l.flatten := by
  induction l with
  | nil => rfl
  | cons p ps ih =>
    by_cases hp : p.isEmpty
    · have : p = [] := List.isEmpty_iff.mp hp
      simp [List.filter_cons, hp, this, ih]
    · simp [List.filter_cons, hp, ih]

lemma splitTextWithRegex_flatten (sep text : List Char) :
    (splitTextWithRegex sep text).flatten = text := by
  rw [splitTextWithRegex]
  by_cases hs : sep.isEmpty
  · rw [if_pos hs, flatten_filter_ne_nil]
    induction text with
    | nil => rfl
    | cons c cs ih => simpa using ih
  · rw [if_neg hs, flatten_filter_ne_nil]
    have hsep : sep ≠ [] := by simpa [List.isEmpty_iff] using hs
    cases heq : splitOnList sep text with
    | nil => exact absurd heq (splitOnListF_ne_nil sep _ text)
    | cons p ps =>
      have := glue_splitOnList sep text hsep
      rw [heq] at this
      simpa [glueSep] using this

lemma takeWhile_all (p : Char → Bool) (l : List Char) :
    ∀ c ∈ l.takeWhile p, p c = true := by
  induction l with
  | nil => simp
  | cons a as ih =>
    by_cases ha : p a
    · intro c hc
      rw [List.takeWhile_cons, if_pos ha] at hc
      rcases List.mem_cons.mp hc with h | h
      · exact h ▸ ha
      · exact ih c h
    · intro c hc
      rw [List.takeWhile_cons, if_neg ha] at hc
      exact absurd hc (List.not_mem_nil c)

lemma stripList_decomp (l : List Char) :
    ∃ a b, l = a ++ stripList l ++ b ∧
      (∀ c ∈ a, c.isWhitespace = true) ∧ (∀ c ∈ b, c.isWhitespace = true) := by
  refine ⟨l.takeWhile Char.isWhitespace,
    ((l.dropWhile Char.isWhitespace).reverse.takeWhile Char.isWhitespace).reverse,
    ?_, takeWhile_all _ l, ?_⟩
  · have h1 := List.takeWhile_append_dropWhile Char.isWhitespace l
    have h2 := List.takeWhile_append_dropWhile Char.isWhitespace
      (l.dropWhile Char.isWhitespace).reverse
    have h2' := congrArg List.reverse h2
    rw [List.reverse_append, List.reverse_reverse] at h2'
    conv_lhs => rw [← h1]
    rw [List.append_assoc]
    congr 1
    conv_lhs => rw [← h2']
    rfl
  · intro c hc
    exact takeWhile_all _ _ c (List.mem_reverse.mp hc)

lemma mem_stripList (l : List Char) (c : Char) (hc : c ∈ l)
    (hw : c.isWhitespace = false) : c ∈ stripList l := by
  obtain ⟨a, b, hl, ha, hb⟩ := stripList_decomp l
  rw [hl] at hc
  rcases List.mem_append.mp hc with h | h
  · rcases List.mem_append.mp h with h' | h'
    · rw [ha c h'] at hw; cases hw
    · exact h'
  · rw [hb c h] at hw; cases hw

lemma stripList_nil_ws (l : List Char) (h : stripList l = []) :
    ∀ c ∈ l, c.isWhitespace = true := by
  intro c hc
  by_contra hw
  have := mem_stripList l c hc (by simpa using hw)
  rw [h] at this
  exact List.not_mem_nil c this

/-- Relation between an emitted chunk and the contiguous source span it came
from: the chunk is the span itself (an oversized piece emitted whole) or the
span with boundary whitespace stripped (a merged chunk). -/
def SpanOf (c m : List Char) : Prop := c = m ∨ c = stripList m

/-- Chunks `cs` ordered inside the text `t`: each chunk is obtained (via
`SpanOf`) from a contiguous span of `t`, and each subsequent chunk's span starts
at or after the start of the previous chunk's span (the tail is placed inside
`m ++ u`, the part of `t` from the current span's start onward). -/
def OrderedFromSpan (t : List Char) : List (List Char) → Prop
  | [] => True
  | c :: cs => ∃ l m u, t = l ++ (m ++ u) ∧ SpanOf c m ∧ OrderedFromSpan (m ++ u) cs

lemma orderedFromSpan_shift (p t : List Char) (cs : List (List Char))
    (h : OrderedFromSpan t cs) : OrderedFromSpan (p ++ t) cs := by
  cases cs with
  | nil => trivial
  | cons c cs' =>
    obtain ⟨l, m, u, ht, hs, hr⟩ := h
    exact ⟨p ++ l, m, u, by rw [ht, List.append_assoc], hs, hr⟩

lemma orderedFromSpan_append (a b : List Char) (cs₁ cs₂ : List (List Char))
    (h₁ : OrderedFromSpan a cs₁) (h₂ : OrderedFromSpan b cs₂) :
    OrderedFromSpan (a ++ b) (cs₁ ++ cs₂) := by
  induction cs₁ generalizing a with
  | nil => exact orderedFromSpan_shift a b cs₂ h₂
  | cons c cs ih =>
    obtain ⟨l, m, u, ht, hs, hr⟩ := h₁
    refine ⟨l, m, u ++ b, ?_, hs, ?_⟩
    · rw [ht]; simp [List.append_assoc]
    · have := ih (m ++ u) hr
      rwa [List.append_assoc] at this

lemma orderedFromSpan_self (m : List Char) : OrderedFromSpan m [m] :=
  ⟨[], m, [], by simp, Or.inl rfl, trivial⟩

lemma orderedFromSpan_strip (m : List Char) : OrderedFromSpan m [stripList m] :=
  ⟨[], m, [], by simp, Or.inr rfl, trivial⟩

lemma popWhile_suffix (size ov lend : Nat) :
    ∀ cur total, ∃ pre, pre ++ (popWhile size ov lend cur total).1 = cur := by
  intro cur
  induction cur with
  | nil => intro total; exact ⟨[], rfl⟩
  | cons c rest ih =>
    intro total
    rw [popWhile]
    split
    · obtain ⟨pre, hpre⟩ := ih (total - c.length)
      exact ⟨c :: pre, by simp [hpre]⟩
    · exact ⟨[], rfl⟩

lemma goMerge_extract (size ov : Nat) :
    ∀ rest docs cur total, goMerge size ov rest docs cur total =
      docs ++ goMerge size ov rest [] cur total := by
  intro rest
  induction rest with
  | nil => intro docs cur total; simp [goMerge]
  | cons d rs ih =>
    intro docs cur total
    rw [goMerge, goMerge]
    by_cases h1 : total + d.length > size
    · rw [if_pos h1, if_pos h1]
      by_cases h2 : cur.isEmpty
      · rw [if_pos h2, if_pos h2, ih docs, ih []]
      · rw [if_neg h2, if_neg h2]
        simp only []
        rw [ih (docs ++ optJoin cur), ih ([] ++ optJoin cur)]
        simp [List.append_assoc]
    · rw [if_neg h1, if_neg h1, ih docs, ih []]

lemma joinDocsK_some (cur : List (List Char)) (d : List Char)
    (h : joinDocsK cur = some d) : d = stripList cur.flatten := by
  rw [joinDocsK] at h
  by_cases he : (stripList cur.flatten).isEmpty
  · simp [he] at h
  · simp [he] at h
    exact h.symm

lemma joinDocsK_none (cur : List (List Char)) (h : joinDocsK cur = none) :
    stripList cur.flatten = [] := by
  rw [joinDocsK] at h
  by_cases he : (stripList cur.flatten).isEmpty
  · exact List.isEmpty_iff.mp he
  · simp [he] at h

lemma goMerge_span (size ov : Nat) :
    ∀ rest cur total,
      OrderedFromSpan (cur.flatten ++ rest.flatten) (goMerge size ov rest [] cur total) := by
  intro rest
  induction rest with
  | nil =>
    intro cur total
    rw [goMerge, List.nil_append]
    cases hj : joinDocsK cur with
    | none => simp [optJoin, hj, OrderedFromSpan]
    | some d =>
      simp only [optJoin, hj, List.flatten_nil, List.append_nil]
      rw [joinDocsK_some cur d hj]
      exact orderedFromSpan_strip cur.flatten
  | cons d rs ih =>
    intro cur total
    rw [goMerge]
    by_cases h1 : total + d.length > size
    · rw [if_pos h1]
      by_cases h2 : cur.isEmpty
      · rw [if_pos h2]
        have := ih (cur ++ [d]) (total + d.length)
        simpa [List.append_assoc] using this
      · rw [if_neg h2]
        simp only [List.nil_append]
        rw [goMerge_extract]
        obtain ⟨pre, hpre⟩ := popWhile_suffix size ov d.length cur total
        have hih := ih ((popWhile size ov d.length cur total).1 ++ [d])
          ((popWhile size ov d.length cur total).2 + d.length)
        have hcurflat : cur.flatten =
            pre.flatten ++ (popWhile size ov d.length cur total).1.flatten := by
          rw [← List.flatten_append, hpre]
        have hshift : OrderedFromSpan (cur.flatten ++ (d :: rs).flatten)
            (goMerge size ov rs [] ((popWhile size ov d.length cur total).1 ++ [d])
              ((popWhile size ov d.length cur total).2 + d.length)) := by
          have := orderedFromSpan_shift pre.flatten _ _ hih
          rw [hcurflat]
          simpa [List.append_assoc] using this
        cases hj : joinDocsK cur with
        | none => simpa [optJoin, hj] using hshift
        | some c0 =>
          simp only [optJoin, hj, List.cons_append, List.nil_append]
          refine ⟨[], cur.flatten, (d :: rs).flatten, by simp, ?_, hshift⟩
          exact Or.inr (joinDocsK_some cur c0 hj)
    · rw [if_neg h1]
      have := ih (cur ++ [d]) (total + d.length)
      simpa [List.append_assoc] using this

lemma goMerge_cover (size ov : Nat) :
    ∀ rest cur total (c : Char), c.isWhitespace = false →
      c ∈ cur.flatten ++ rest.flatten →
      c ∈ (goMerge size ov rest [] cur total).flatten := by
  intro rest
  induction rest with
  | nil =>
    intro cur total c hw hc
    rw [List.flatten_nil, List.append_nil] at hc
    rw [goMerge, List.nil_append]
    cases hj : joinDocsK cur with
    | none =>
      have := stripList_nil_ws cur.flatten (joinDocsK_none cur hj) c hc
      rw [this] at hw; cases hw
    | some d =>
      simp only [optJoin, hj, List.flatten_cons, List.flatten_nil, List.append_nil]
      rw [joinDocsK_some cur d hj]
      exact mem_stripList _ c hc hw
  | cons d rs ih =>
    intro cur total c hw hc
    rw [goMerge]
    by_cases h1 : total + d.length > size
    · rw [if_pos h1]
      by_cases h2 : cur.isEmpty
      · rw [if_pos h2]
        refine ih (cur ++ [d]) (total + d.length) c hw ?_
        simpa [List.append_assoc] using hc
      · rw [if_neg h2]
        simp only [List.nil_append]
        rw [goMerge_extract, List.flatten_append]
        rcases List.mem_append.mp hc with hcur | hrest
        · cases hj : joinDocsK cur with
          | none =>
            have := stripList_nil_ws cur.flatten (joinDocsK_none cur hj) c hcur
            rw [this] at hw; cases hw
          | some c0 =>
            apply List.mem_append.mpr (Or.inl _)
            simp only [optJoin, hj, List.flatten_cons, List.flatten_nil, List.append_nil]
            rw [joinDocsK_some cur c0 hj]
            exact mem_stripList _ c hcur hw
        · apply List.mem_append.mpr (Or.inr _)
          refine ih ((popWhile size ov d.length cur total).1 ++ [d])
            ((popWhile size ov d.length cur total).2 + d.length) c hw ?_
          simp only [List.flatten_append, List.flatten_cons, List.flatten_nil,
            List.append_nil, List.append_assoc] at hrest ⊢
          exact List.mem_append.mpr (Or.inr hrest)
    · rw [if_neg h1]
      refine ih (cur ++ [d]) (total + d.length) c hw ?_
      simpa [List.append_assoc] using hc

lemma mergeSplits_span (size ov : Nat) (splits : List (List Char)) :
    OrderedFromSpan splits.flatten (mergeSplits size ov splits) := by
  have := goMerge_span size ov splits [] 0
  simpa [mergeSplits] using this

lemma mergeSplits_cover (size ov : Nat) (splits : List (List Char)) (c : Char)
    (hw : c.isWhitespace = false) (hc : c ∈ splits.flatten) :
    c ∈ (mergeSplits size ov splits).flatten := by
  refine goMerge_cover size ov splits [] 0 c hw ?_
  simpa using hc

lemma goProcess_span (size ov : Nat) (noSeps : Bool) (recur : List Char → List (List Char))
    (H : ∀ s, OrderedFromSpan s (recur s)) :
    ∀ rest good, OrderedFromSpan (good.flatten ++ rest.flatten)
      (goProcess size ov noSeps recur rest good) := by
  intro rest
  induction rest with
  | nil =>
    intro good
    rw [goProcess]
    by_cases hg : good.isEmpty
    · simp [hg, OrderedFromSpan]
    · rw [if_neg hg]
      simpa using mergeSplits_span size ov good
  | cons s rs ih =>
    intro good
    rw [goProcess]
    by_cases hlen : s.length < size
    · rw [if_pos hlen]
      have := ih (good ++ [s])
      simpa [List.append_assoc] using this
    · rw [if_neg hlen]
      have hA : OrderedFromSpan good.flatten
          (if good.isEmpty then [] else mergeSplits size ov good) := by
        by_cases hg : good.isEmpty
        · simp [hg, List.isEmpty_iff.mp hg, OrderedFromSpan]
        · rw [if_neg hg]; exact mergeSplits_span size ov good
      have hB : OrderedFromSpan s (if noSeps then [s] else recur s) := by
        by_cases hn : noSeps
        · rw [if_pos hn]; exact orderedFromSpan_self s
        · rw [if_neg hn]; exact H s
      have hC : OrderedFromSpan rs.flatten (goProcess size ov noSeps recur rs []) := by
        simpa using ih []
      have := orderedFromSpan_append good.flatten (s ++ rs.flatten) _ _
        hA (orderedFromSpan_append s rs.flatten _ _ hB hC)
      simpa [List.append_assoc] using this

lemma goProcess_cover (size ov : Nat) (noSeps : Bool) (recur : List Char → List (List Char))
    (H : ∀ s c, c.isWhitespace = false → c ∈ s → c ∈ (recur s).flatten) :
    ∀ rest good (c : Char), c.isWhitespace = false →
      c ∈ good.flatten ++ rest.flatten →
      c ∈ (goProcess size ov noSeps recur rest good).flatten := by
  intro rest
  induction rest with
  | nil =>
    intro good c hw hc
    rw [List.flatten_nil, List.append_nil] at hc
    rw [goProcess]
    by_cases hg : good.isEmpty
    · rw [List.isEmpty_iff.mp hg] at hc
      exact absurd hc (List.not_mem_nil c)
    · rw [if_neg hg]
      exact mergeSplits_cover size ov good c hw hc
  | cons s rs ih =>
    intro good c hw hc
    rw [goProcess]
    by_cases hlen : s.length < size
    · rw [if_pos hlen]
      refine ih (good ++ [s]) c hw ?_
      simpa [List.append_assoc] using hc
    · rw [if_neg hlen]
      simp only [List.flatten_append]
      rw [List.flatten_cons] at hc
      rcases List.mem_append.mp hc with hgood | hsr
      · refine List.mem_append.mpr (Or.inl (List.mem_append.mpr (Or.inl ?_)))
        by_cases hg : good.isEmpty
        · rw [List.isEmpty_iff.mp hg] at hgood
          exact absurd hgood (List.not_mem_nil c)
        · rw [if_neg hg]
          exact mergeSplits_cover size ov good c hw hgood
      · rcases List.mem_append.mp hsr with hs | hrs
        · refine List.mem_append.mpr (Or.inl (List.mem_append.mpr (Or.inr ?_)))
          by_cases hn : noSeps
          · simp [hn, hs]
          · rw [if_neg hn]
            exact H s c hw hs
        · refine List.mem_append.mpr (Or.inr ?_)
          refine ih [] c hw ?_
          simpa using hrs

lemma splitTextFuel_span (size ov : Nat) :
    ∀ fuel seps text, OrderedFromSpan text (splitTextFuel size ov fuel seps text) := by
  intro fuel
  induction fuel with
  | zero => intro seps text; exact orderedFromSpan_self text
  | succ fuel ih =>
    intro seps text
    rw [splitTextFuel]
    have := goProcess_span size ov (chooseSep text seps).2.isEmpty
      (splitTextFuel size ov fuel (chooseSep text seps).2) (fun s => ih _ s)
      (splitTextWithRegex (chooseSep text seps).1 text) []
    rw [List.flatten_nil, List.nil_append, splitTextWithRegex_flatten] at this
    exact this

lemma splitTextFuel_cover (size ov : Nat) :
    ∀ fuel seps text (c : Char), c.isWhitespace = false → c ∈ text →
      c ∈ (splitTextFuel size ov fuel seps text).flatten := by
  intro fuel
  induction fuel with
  | zero =>
    intro seps text c _ hc
    simpa [splitTextFuel] using hc
  | succ fuel ih =>
    intro seps text c hw hc
    rw [splitTextFuel]
    refine goProcess_cover size ov (chooseSep text seps).2.isEmpty
      (splitTextFuel size ov fuel (chooseSep text seps).2)
      (fun s c hw hs => ih _ s c hw hs)
      (splitTextWithRegex (chooseSep text seps).1 text) [] c hw ?_
    rw [List.flatten_nil, List.nil_append, splitTextWithRegex_flatten]
    exact hc

/-- Every chunk produced by the splitter comes from a contiguous span of the
document (as the span itself or with boundary whitespace stripped), spans occur
at monotonically non-decreasing start offsets, and every non-whitespace
character of the document appears in some chunk. -/
theorem split_text_spans (size ov : Nat) (text : List Char) :
    OrderedFromSpan text (split_text size ov text) :=
  splitTextFuel_span size ov _ _ text

theorem split_text_covers (size ov : Nat) (text : List Char) (c : Char)
    (hw : c.isWhitespace = false) (hc : c ∈ text) :
    ∃ ch ∈ split_text size ov text, c ∈ ch :=
  List.mem_flatten.mp (splitTextFuel_cover size ov _ _ text c hw hc)

/-- Exceptions the modelled Python code can raise, together with the error
types named by the spec's taxonomy (`ConfigurationError`, `EmptyCorpusError`,
`PipelineNotReadyError`).  The spec-taxonomy constructors are never produced by
the modelled code — no such classes exist anywhere in the repository — they are
present only so that statements can distinguish them from what is raised. -/
inductive PyError
  | valueError (msg : String)
  | attributeError (msg : String)
  | configurationError
  | emptyCorpusError
  | pipelineNotReadyError
deriving DecidableEq

/-- Messages of a langchain chat history (`ConversationBufferMemory` stores
`HumanMessage` / `AIMessage` values). -/
inductive ChatMessage
  | human (text : String)
  | ai (text : String)
deriving DecidableEq

/-- Models langchain's `ConversationBufferMemory`: a plain unbounded list of
chat messages. -/
structure ConversationBufferMemory where
  messages : List ChatMessage
deriving DecidableEq

/-- Models `ConversationBufferMemory.save_context({"question": q}, {"answer":
a})`: append the human message and then the AI message; nothing is ever
removed. -/
def ConversationBufferMemory.save_context (m : ConversationBufferMemory)
    (question answer : String) : ConversationBufferMemory :=
  ⟨m.messages ++ [ChatMessage.human question, ChatMessage.ai answer]⟩

/-- Sequentially record a list of question/answer turns
(what repeated queries do to the memory). -/
def save_turns (m : ConversationBufferMemory) : List (String × String) → ConversationBufferMemory
  | [] => m
  | t :: ts => save_turns (m.save_context t.1 t.2) ts

/-- Messages contributed by a list of turns, in order. -/
def turnsToMessages (ts : List (String × String)) : List ChatMessage :=
  (ts.map (fun t => [ChatMessage.human t.1, ChatMessage.ai t.2])).flatten

/-- State of a `TradingPlatformRAG` object (`rag_pipeline.py`).  The Chroma
vector store is modelled by the list of chunk texts it holds; the LLM handle and
the `ConversationalRetrievalChain` carry no data of their own in the model (the
chain's retriever and memory are the object's `vector_store` and `memory`, which
the chain aliases in the Python code). -/
structure TradingPlatformRAG where
  openai_api_key : String
  persist_directory : String
  vector_store : Option (List (List Char))
  llm : Option Unit
  chain : Option Unit
  memory : Option ConversationBufferMemory
deriving DecidableEq

/-- Models `TradingPlatformRAG.__init__`. -/
def TradingPlatformRAG.make (key dir : String) : TradingPlatformRAG :=
  ⟨key, dir, none, none, none, none⟩

/-- Models the loading loop of `TradingPlatformRAG.load_and_chunk_document`:
each URL is loaded through the (external) `WebBaseLoader`; a source that raises
is logged and skipped (`except Exception: continue`), the others contribute
their documents in order. -/
def gather_documents (loader : String → Except String (List (List Char))) :
    List String → List (List Char)
  | [] => []
  | u :: us =>
    match loader u with
    | Except.ok ds => ds ++ gather_documents loader us
    | Except.error _ => gather_documents loader us

/-- Constructor check of langchain's `TextSplitter.__init__`: a chunk overlap
strictly larger than the chunk size raises `ValueError` (an overlap equal to the
chunk size is accepted). -/
def splitterCtorMsg (size ov : Nat) : String :=
  "Got a larger chunk overlap (" ++ toString ov ++ ") than chunk size (" ++
    toString size ++ "), should be smaller."

/-- Models `TradingPlatformRAG.load_and_chunk_document(urls, chunk_size,
chunk_overlap)`: load every URL (skipping failures), then construct the splitter
(which raises `ValueError` when `overlap > size`) and split all loaded
documents. -/
def load_and_chunk_document (loader : String → Except String (List (List Char)))
    (urls : List String) (size ov : Nat) : Except PyError (List (List Char)) :=
  let all_documents := gather_documents loader urls
  if ov > size then Except.error (PyError.valueError (splitterCtorMsg size ov))
  else Except.ok (split_documents size ov all_documents)

/-- Models `TradingPlatformRAG.build_vector_store(chunks)`, i.e.
`Chroma.from_documents`.  Third-party behaviour of the call: with an empty chunk
list, langchain upserts an empty batch into chromadb, whose validation rejects
empty ID lists with a `ValueError`; with a non-empty list the store now holds
exactly the chunks. -/
def build_vector_store (s : TradingPlatformRAG) (chunks : List (List Char)) :
    Except PyError TradingPlatformRAG :=
  if chunks.isEmpty then
    Except.error (PyError.valueError "Expected IDs to be a non-empty list, got 0 IDs")
  else
    Except.ok { s with vector_store := some chunks }

/-- Models `TradingPlatformRAG.setup_conversation_chain`: create the LLM handle,
a fresh empty `ConversationBufferMemory`, and the conversational chain over
`self.vector_store.as_retriever(...)` (an `AttributeError` if the store was
never built, since `self.vector_store` is `None`). -/
def setup_conversation_chain (s : TradingPlatformRAG) : Except PyError TradingPlatformRAG :=
  match s.vector_store with
  | none => Except.error (PyError.attributeError "NoneType object has no attribute as_retriever")
  | some _ =>
    Except.ok { s with llm := some (), memory := some ⟨[]⟩, chain := some () }

/-- Models `TradingPlatformRAG.query(question)`, including the behaviour of
`ConversationalRetrievalChain.invoke` (the library call on `self.chain`):
without a chain, raise `ValueError`; otherwise condense the question against the
chat history (when the history is non-empty), retrieve from the vector store,
synthesize the answer from the retrieved chunks, and append the question/answer
turn to the conversation memory.  `retrieve`, `condense` and `combine` are the
external gateway calls (embeddings + similarity search, question-generator LLM,
combine-docs LLM); the `memory`/`vector_store` defaults in the `let` binders are
unreachable, because the Python chain object aliases the memory and retriever
that existed when `setup_conversation_chain` built it. -/
def TradingPlatformRAG.query
    (retrieve : List (List Char) → String → List (List Char))
    (condense : List ChatMessage → String → String)
    (combine : List (List Char) → String → String)
    (s : TradingPlatformRAG) (question : String) :
    Except PyError (String × TradingPlatformRAG) :=
  match s.chain with
  | none =>
    Except.error (PyError.valueError
      "Chain not initialized. Call setup_conversation_chain() first.")
  | some _ =>
    let mem := match s.memory with | some m => m | none => ⟨[]⟩
    let store := match s.vector_store with | some v => v | none => []
    let chat_history := mem.messages
    let new_question := if chat_history.isEmpty then question else condense chat_history question
    let docs := retrieve store new_question
    let answer := combine docs new_question
    Except.ok (answer, { s with memory := some (mem.save_context question answer) })

/-- Models `TradingPlatformRAG.initialize_from_url(urls)`: load and chunk (with
the default `chunk_size=1000`, `chunk_overlap=200`), build the vector store,
set up the conversational chain; any raised error propagates. -/
def initialize_from_url (loader : String → Except String (List (List Char)))
    (s : TradingPlatformRAG) (urls : List String) : Except PyError TradingPlatformRAG :=
  match load_and_chunk_document loader urls 1000 200 with
  | Except.error e => Except.error e
  | Except.ok chunks =>
    match build_vector_store s chunks with
    | Except.error e => Except.error e
    | Except.ok s1 =>
      match setup_conversation_chain s1 with
      | Except.error e => Except.error e
      | Except.ok s2 => Except.ok s2

/-- Retriever produced by `vector_store.as_retriever(search_kwargs={"k": 3})`
over the in-memory vector store of `rag_pipeline_single_url.py`: it captures the
store contents and the `k` parameter. -/
structure Retriever where
  store : List (List Char)
  k : Nat
deriving DecidableEq

/-- Stable insertion used to model Python's stable sort with
`reverse=True`-style descending order on similarity scores: a new element goes
after every already-placed element whose score is at least as large. -/
def insertByScore (acc : List (List Char × ℚ)) (x : List Char × ℚ) : List (List Char × ℚ) :=
  match acc with
  | [] => [x]
  | y :: ys => if x.2 ≤ y.2 then y :: insertByScore ys x else x :: y :: ys

/-- Models `InMemoryVectorStore` similarity search as used by
`retriever.invoke(question)`: score every stored chunk against the question with
the external embedding/similarity oracle `sim`, sort descending by score (stable
with respect to insertion order), and return the texts of the top `k`. -/
def similarity_search (sim : List Char → String → ℚ) (store : List (List Char))
    (k : Nat) (question : String) : List (List Char) :=
  (((store.map (fun d => (d, sim d question))).foldl insertByScore []).take k).map Prod.fst

/-- State of a `SingleURLRAG` object (`rag_pipeline_single_url.py`).  `memory`
is assigned `None` in `__init__` and never touched again anywhere in the class;
`retriever` and `qa_prompt` are attributes that exist only after
`setup_qa_chain` ran. -/
structure SingleURLRAG where
  api_key : String
  documents : List (List Char)
  chunks : List (List Char)
  vector_store : Option (List (List Char))
  llm : Option Unit
  memory : Option Unit
  qa_chain : Option Unit
  retriever : Option Retriever
  qa_prompt : Option Unit
deriving DecidableEq

/-- Models `SingleURLRAG.__init__` (with a non-empty key supplied). -/
def SingleURLRAG.make (key : String) : SingleURLRAG :=
  ⟨key, [], [], none, none, none, none, none, none⟩

/-- Models `SingleURLRAG.load_document(url)`: on success store the loaded
documents; a loader failure is re-raised (`raise` in the `except` block). -/
def SingleURLRAG.load_document (loader : String → Except String (List (List Char)))
    (s : SingleURLRAG) (url : String) : Except String SingleURLRAG :=
  match loader url with
  | Except.ok ds => Except.ok { s with documents := ds }
  | Except.error e => Except.error e

/-- Models `SingleURLRAG.chunk_document(chunk_size, chunk_overlap)`: construct
the splitter (raising `ValueError` when `overlap > size`, before any chunking
work) and split `self.documents`, storing and returning the chunks. -/
def SingleURLRAG.chunk_document (s : SingleURLRAG) (size ov : Nat) :
    Except PyError (List (List Char) × SingleURLRAG) :=
  if ov > size then Except.error (PyError.valueError (splitterCtorMsg size ov))
  else
    let chunks := split_documents size ov s.documents
    Except.ok (chunks, { s with chunks := chunks })

/-- Models `SingleURLRAG.generate_embeddings`: build the in-memory vector store
holding the chunks (adding an empty list of documents to an
`InMemoryVectorStore` is a no-op, not an error). -/
def SingleURLRAG.generate_embeddings (s : SingleURLRAG) : SingleURLRAG :=
  { s with vector_store := some s.chunks }

/-- Models `SingleURLRAG.setup_qa_chain`: create the LLM handle, the retriever
with `k = 3` over the vector store, and the QA prompt (an `AttributeError` if
the vector store was never built). -/
def SingleURLRAG.setup_qa_chain (s : SingleURLRAG) : Except PyError SingleURLRAG :=
  match s.vector_store with
  | none => Except.error (PyError.attributeError "NoneType object has no attribute as_retriever")
  | some v =>
    Except.ok { s with llm := some (), retriever := some ⟨v, 3⟩, qa_prompt := some () }

/-- Literal text of the QA prompt template before the context slot (including
the indentation whitespace of the Python source string). -/
def qaPromptPre : List Char :=
  "Use the following context to answer the question.\n            \nContext:\n".toList

/-- Literal template text between the context and the question. -/
def qaPromptMid : List Char := "\n\nQuestion: ".toList

/-- Literal template text after the question. -/
def qaPromptPost : List Char := "\n\nAnswer:".toList

/-- Models `self.qa_prompt.format(context=..., question=...)`. -/
def qa_prompt_format (context : List Char) (question : String) : List Char :=
  qaPromptPre ++ context ++ qaPromptMid ++ question.toList ++ qaPromptPost

/-- Models `"\n".join(doc.page_content for doc in relevant_docs)`. -/
def contextOf (docs : List (List Char)) : List Char :=
  (docs.intersperse ['\n']).flatten

/-- Models `SingleURLRAG.query(question)`: without the retriever attribute,
raise `ValueError`; otherwise retrieve the relevant chunks, join them into the
context, format the prompt, and return the chat model's answer.  `sim` is the
external embedding/similarity oracle and `chat` the external chat model
(`self.llm.invoke`); the response's `content` attribute is the returned string.
No field of the object is assigned, so the state comes back unchanged. -/
def SingleURLRAG.query (sim : List Char → String → ℚ) (chat : List Char → String)
    (s : SingleURLRAG) (question : String) : Except PyError (String × SingleURLRAG) :=
  match s.retriever with
  | none =>
    Except.error (PyError.valueError
      "QA chain not initialized. Call initialize_from_url() first")
  | some r =>
    let relevant_docs := similarity_search sim r.store r.k question
    let context := contextOf relevant_docs
    let prompt_text := qa_prompt_format context question
    let answer := chat prompt_text
    Except.ok (answer, s)

/-- Retrieval step of `SingleURLRAG.query` in isolation
(`self.retriever.invoke(question)`), when the retriever exists. -/
def retrieveStep (sim : List Char → String → ℚ) (s : SingleURLRAG) (question : String) :
    Option (List (List Char)) :=
  s.retriever.map (fun r => similarity_search sim r.store r.k question)

lemma save_turns_messages : ∀ (ts : List (String × String)) (m : ConversationBufferMemory),
    (save_turns m ts).messages = m.messages ++ turnsToMessages ts := by
  intro ts
  induction ts with
  | nil => intro m; simp [save_turns, turnsToMessages]
  | cons t ts ih =>
    intro m
    rw [save_turns, ih]
    simp [ConversationBufferMemory.save_context, turnsToMessages]

lemma gather_documents_nil (loader : String → Except String (List (List Char))) :
    ∀ urls : List String, (∀ u ∈ urls, ∃ e, loader u = Except.error e) →
      gather_documents loader urls = [] := by
  intro urls
  induction urls with
  | nil => intro _; rfl
  | cons u us ih =>
    intro h
    obtain ⟨e, he⟩ := h u (List.mem_cons_self u us)
    rw [gather_documents, he]
    exact ih (fun v hv => h v (List.mem_cons_of_mem u hv))

/-- Result test for the modelled calls: did the call return normally? -/
def isOkE {α : Type} : Except PyError α → Bool
  | Except.ok _ => true
  | Except.error _ => false

/-- Exception raised by a modelled call, if any. -/
def errOf {α : Type} : Except PyError α → Option PyError
  | Except.ok _ => none
  | Except.error e => some e

/-- Claim C1's coverage property exactly as the spec states it: every character
of the document text appears in some chunk. -/
def coversAllChars (text : List Char) (chunks : List (List Char)) : Prop :=
  ∀ c ∈ text, ∃ ch ∈ chunks, c ∈ ch

instance (text : List Char) (chunks : List (List Char)) :
    Decidable (coversAllChars text chunks) :=
  inferInstanceAs (Decidable (∀ c ∈ text, ∃ ch ∈ chunks, c ∈ ch))

/-- Example document whose leading space is stripped by the chunker. -/
def exDoc : List Char := " hi".toList

/-- A `SingleURLRAG` object right after `load_document` succeeded on `exDoc`. -/
def exSingleWithDoc : SingleURLRAG :=
  { SingleURLRAG.make "key" with documents := [exDoc] }

/-- Document loader oracle: one URL loads a document, every other URL raises. -/
def exLoader : String → Except String (List (List Char)) :=
  fun u => if u = "https://good" then Except.ok ["hello world".toList]
           else Except.error "fetch failed"

/-- Retrieval oracle returning no documents. -/
def exRetrieve : List (List Char) → String → List (List Char) := fun _ _ => []

/-- Question-condensing LLM oracle. -/
def exCondense : List ChatMessage → String → String := fun _ q => q

/-- Answer-synthesis LLM oracle. -/
def exCombine : List (List Char) → String → String := fun _ _ => "the answer"

/-- Embedding/similarity oracle assigning every chunk the same score. -/
def exSim : List Char → String → ℚ := fun _ _ => 0

/-- Chat-model oracle. -/
def exChat : List Char → String := fun _ => "llm answer"

/-- A `TradingPlatformRAG` object in the Ready state (as left by
`initialize_from_url` on a corpus with one chunk). -/
def exTPReady : TradingPlatformRAG :=
  ⟨"k", "./chroma_db", some ["hello world".toList], some (), some (), some ⟨[]⟩⟩

/-- Chunks of the example corpus. -/
def exChunks : List (List Char) := ["hello world".toList]

/-- A `SingleURLRAG` object in the Ready state (as left by
`initialize_from_url` on the example document). -/
def exSingleReady : SingleURLRAG :=
  ⟨"k", ["hello world".toList], exChunks, some exChunks, some (), none, none,
    some ⟨exChunks, 3⟩, some ()⟩

/-- A `SingleURLRAG` object in the Ready state whose store retrieves nothing. -/
def exSingleEmptyStore : SingleURLRAG :=
  ⟨"k", [], [], some [], some (), none, none, some ⟨[], 3⟩, some ()⟩

/-- C1 counterexample: chunking the document `" hi"` with the pipelines'
configured `chunk_size=1000`, `chunk_overlap=200` succeeds and yields the single
chunk `"hi"` — the leading space character of the source text is dropped
(`strip_whitespace` in the splitter), so the chunk spans do not cover the
document's full text. -/
theorem claim1_counterexample :
    SingleURLRAG.chunk_document exSingleWithDoc 1000 200 =
      Except.ok (["hi".toList], { exSingleWithDoc with chunks := ["hi".toList] }) ∧
    ¬ coversAllChars exDoc ["hi".toList] :=
  ⟨rfl, by decide⟩

/-- C1 (amended): chunking a document yields chunks each of which is obtained
from a contiguous span of the source text (the span itself, or the span with
boundary whitespace stripped), the spans' start offsets are monotonically
non-decreasing in source order, and no non-whitespace character of the source
text is dropped (boundary whitespace may be). -/
theorem claim1_amended (size ov : Nat) (text : List Char) :
    OrderedFromSpan text (split_text size ov text) ∧
    ∀ c ∈ text, c.isWhitespace = false → ∃ ch ∈ split_text size ov text, c ∈ ch :=
  ⟨split_text_spans size ov text,
    fun c hc hw => split_text_covers size ov text c hw hc⟩

theorem claim1_witness :
    'h' ∈ exDoc ∧ 'h'.isWhitespace = false ∧
    ∃ ch ∈ split_text 1000 200 exDoc, 'h' ∈ ch :=
  ⟨by decide, by decide, (claim1_amended 1000 200 exDoc).2 'h' (by decide) (by decide)⟩

/-- C2 counterexample: a chunking call with `overlap = chunk_size` (5 = 5) does
not fail at all — the splitter's constructor check is strict (`overlap >
chunk_size`) — and when the check does fire (overlap 6 > size 5) the exception
is a plain `ValueError`, not a `ConfigurationError` (no such class exists in the
repository). -/
theorem claim2_counterexample :
    isOkE (SingleURLRAG.chunk_document exSingleWithDoc 5 5) = true ∧
    errOf (SingleURLRAG.chunk_document exSingleWithDoc 5 6) =
      some (PyError.valueError (splitterCtorMsg 5 6)) ∧
    errOf (SingleURLRAG.chunk_document exSingleWithDoc 5 6) ≠
      some PyError.configurationError := by
  refine ⟨by decide, rfl, by decide⟩

/-- C2 (amended): every chunking call with `overlap > chunk_size` (strict) fails
with `ValueError`, raised by the splitter's constructor before any chunking work
is done; `overlap = chunk_size` is accepted.  This holds for both
`SingleURLRAG.chunk_document` and `TradingPlatformRAG.load_and_chunk_document`. -/
theorem claim2_amended (s : SingleURLRAG)
    (loader : String → Except String (List (List Char))) (urls : List String)
    (size ov : Nat) (h : ov > size) :
    SingleURLRAG.chunk_document s size ov =
      Except.error (PyError.valueError (splitterCtorMsg size ov)) ∧
    load_and_chunk_document loader urls size ov =
      Except.error (PyError.valueError (splitterCtorMsg size ov)) := by
  constructor
  · rw [SingleURLRAG.chunk_document, if_pos h]
  · rw [load_and_chunk_document]
    simp only [if_pos h]

theorem claim2_witness :
    6 > 5 ∧
    SingleURLRAG.chunk_document exSingleWithDoc 5 6 =
      Except.error (PyError.valueError (splitterCtorMsg 5 6)) ∧
    load_and_chunk_document exLoader ["https://good"] 5 6 =
      Except.error (PyError.valueError (splitterCtorMsg 5 6)) :=
  ⟨by decide,
    (claim2_amended exSingleWithDoc exLoader ["https://good"] 5 6 (by decide)).1,
    (claim2_amended exSingleWithDoc exLoader ["https://good"] 5 6 (by decide)).2⟩

/-- C3 counterexample: querying a freshly constructed pipeline (ingestion not
run) fails with a plain `ValueError` in both classes, not with
`PipelineNotReadyError` (no such class exists in the repository). -/
theorem claim3_counterexample :
    errOf (TradingPlatformRAG.query exRetrieve exCondense exCombine
        (TradingPlatformRAG.make "k" "./chroma_db") "hi") =
      some (PyError.valueError
        "Chain not initialized. Call setup_conversation_chain() first.") ∧
    errOf (TradingPlatformRAG.query exRetrieve exCondense exCombine
        (TradingPlatformRAG.make "k" "./chroma_db") "hi") ≠
      some PyError.pipelineNotReadyError ∧
    errOf (SingleURLRAG.query exSim exChat (SingleURLRAG.make "k") "hi") =
      some (PyError.valueError
        "QA chain not initialized. Call initialize_from_url() first") ∧
    errOf (SingleURLRAG.query exSim exChat (SingleURLRAG.make "k") "hi") ≠
      some PyError.pipelineNotReadyError :=
  ⟨rfl, by decide, rfl, by decide⟩

/-- C3 (amended): in every session state in which ingestion has not completed
(`chain` is `None` in `TradingPlatformRAG`, the `retriever` attribute is absent
in `SingleURLRAG`), the query operation fails with `ValueError` rather than
returning an answer. -/
theorem claim3_amended
    (retrieve : List (List Char) → String → List (List Char))
    (condense : List ChatMessage → String → String)
    (combine : List (List Char) → String → String)
    (s : TradingPlatformRAG) (q : String) (h : s.chain = none)
    (sim : List Char → String → ℚ) (chat : List Char → String)
    (s2 : SingleURLRAG) (q2 : String) (h2 : s2.retriever = none) :
    TradingPlatformRAG.query retrieve condense combine s q =
      Except.error (PyError.valueError
        "Chain not initialized. Call setup_conversation_chain() first.") ∧
    SingleURLRAG.query sim chat s2 q2 =
      Except.error (PyError.valueError
        "QA chain not initialized. Call initialize_from_url() first") := by
  constructor
  · rw [TradingPlatformRAG.query, h]
  · rw [SingleURLRAG.query, h2]

theorem claim3_witness :
    (TradingPlatformRAG.make "k" "./chroma_db").chain = none ∧
    (SingleURLRAG.make "k").retriever = none ∧
    (TradingPlatformRAG.query exRetrieve exCondense exCombine
        (TradingPlatformRAG.make "k" "./chroma_db") "hi" =
      Except.error (PyError.valueError
        "Chain not initialized. Call setup_conversation_chain() first.") ∧
    SingleURLRAG.query exSim exChat (SingleURLRAG.make "k") "hi" =
      Except.error (PyError.valueError
        "QA chain not initialized. Call initialize_from_url() first")) :=
  ⟨rfl, rfl,
    claim3_amended exRetrieve exCondense exCombine
      (TradingPlatformRAG.make "k" "./chroma_db") "hi" rfl
      exSim exChat (SingleURLRAG.make "k") "hi" rfl⟩

/-- C4 code-bug evidence: at the failing input — a Ready `SingleURLRAG` session
and the question "hello" — the query succeeds but appends nothing to any
conversation memory (the object's `memory` field is `None` before and after, and
the state is returned unchanged), although the class's own docstrings promise
"conversational memory".  `TradingPlatformRAG.query`, by contrast, does append
exactly the question/answer turn. -/
theorem claim4_code_bug_eval :
    TradingPlatformRAG.query exRetrieve exCondense exCombine exTPReady "hello" =
      Except.ok ("the answer",
        { exTPReady with memory := some (ConversationBufferMemory.mk [ChatMessage.human "hello", ChatMessage.ai "the answer"]) }) ∧
    SingleURLRAG.query exSim exChat exSingleReady "hello" =
      Except.ok ("llm answer", exSingleReady) ∧
    exSingleReady.memory = none :=
  ⟨rfl, rfl, rfl⟩

/-- Question string of length `i` (used to build turn sequences with pairwise
distinct questions). -/
def qn (i : Nat) : String := String.mk (List.replicate i 'q')

lemma qn_injective (i j : Nat) (h : qn i = qn j) : i = j := by
  have hd := congrArg String.data h
  simpa [qn] using congrArg List.length hd

/-- Claim C5's FIFO-eviction property at a candidate bound `B`: after appending
a sequence of turns with pairwise distinct questions whose length exceeds `B`,
the oldest turn's question message has been evicted from the memory.  (The
distinctness requirement makes the property one that a correctly bounded FIFO
memory with bound `B ≥ 1` satisfies: no newer retained turn can re-contribute
the oldest question's message.) -/
def fifoEvicts (B : Nat) : Prop :=
  ∀ (t0 : String × String) (rest : List (String × String)),
    (t0 :: rest).Pairwise (fun t t' => t.1 ≠ t'.1) →
    B < rest.length + 1 →
    ChatMessage.human t0.1 ∉ (save_turns ⟨[]⟩ (t0 :: rest)).messages

/-- C5 counterexample: no bound `B` exists for which the conversation memory
evicts the oldest turn once more than `B` pairwise-distinct turns are recorded —
for every `B`, after `B + 1` turns with pairwise distinct questions the oldest
turn's message is still present (shown concretely for three distinct turns as
well: all six messages are retained in order). -/
theorem claim5_counterexample :
    (¬ ∃ B : Nat, fifoEvicts B) ∧
    (save_turns ⟨[]⟩ [("q1", "a1"), ("q2", "a2"), ("q3", "a3")]).messages =
      [ChatMessage.human "q1", ChatMessage.ai "a1", ChatMessage.human "q2",
        ChatMessage.ai "a2", ChatMessage.human "q3", ChatMessage.ai "a3"] := by
  constructor
  · rintro ⟨B, hB⟩
    have hpw : (((qn 1, "a") : String × String) ::
        (List.range B).map (fun i => (qn (i + 2), "a"))).Pairwise
        (fun t t' => t.1 ≠ t'.1) := by
      rw [List.pairwise_cons]
      constructor
      · intro t' ht' heq
        obtain ⟨i, _, hi⟩ := List.mem_map.mp ht'
        rw [← hi] at heq
        exact absurd (qn_injective 1 (i + 2) heq) (by omega)
      · rw [List.pairwise_map]
        refine (List.pairwise_lt_range B).imp ?_
        intro i j hij heq
        exact absurd (qn_injective (i + 2) (j + 2) heq) (by omega)
    have h := hB (qn 1, "a") ((List.range B).map (fun i => (qn (i + 2), "a")))
      hpw (by simp)
    apply h
    rw [save_turns_messages]
    simp [turnsToMessages]
  · decide

/-- C5 (amended): the conversation memory (`ConversationBufferMemory`) is
unbounded and append-only: after recording any sequence of turns, every turn —
including the oldest — is present, in original order, with nothing evicted and
nothing reordered (the message list is exactly the previous messages followed by
the new turns' messages, two per turn). -/
theorem claim5_amended (m : ConversationBufferMemory) (ts : List (String × String)) :
    (save_turns m ts).messages = m.messages ++ turnsToMessages ts ∧
    (save_turns m ts).messages.length = m.messages.length + 2 * ts.length := by
  refine ⟨save_turns_messages ts m, ?_⟩
  rw [save_turns_messages ts m, List.length_append]
  congr 1
  induction ts with
  | nil => simp [turnsToMessages]
  | cons t ts ih => simp [turnsToMessages] at ih ⊢; omega

/-- C6: retrieval is deterministic and idempotent — a successful query leaves
the session state (hence the index) unchanged, the retrieval step against the
resulting state returns exactly the same ordered results as against the original
state, and repeating the query returns the identical answer and state. -/
theorem claim6_retrieve_deterministic (sim : List Char → String → ℚ)
    (chat : List Char → String) (s : SingleURLRAG) (q a : String) (s' : SingleURLRAG)
    (h : SingleURLRAG.query sim chat s q = Except.ok (a, s')) :
    s' = s ∧ retrieveStep sim s' q = retrieveStep sim s q ∧
    SingleURLRAG.query sim chat s' q = Except.ok (a, s') := by
  cases hr : s.retriever with
  | none => rw [SingleURLRAG.query, hr] at h; cases h
  | some r =>
    rw [SingleURLRAG.query, hr] at h
    have hs : s' = s := by
      cases h
      rfl
    subst hs
    refine ⟨rfl, rfl, ?_⟩
    rw [SingleURLRAG.query, hr]
    exact h

theorem claim6_witness :
    exSingleReady = exSingleReady ∧
    retrieveStep exSim exSingleReady "hi" = retrieveStep exSim exSingleReady "hi" ∧
    SingleURLRAG.query exSim exChat exSingleReady "hi" =
      Except.ok ("llm answer", exSingleReady) :=
  claim6_retrieve_deterministic exSim exChat exSingleReady "hi" "llm answer"
    exSingleReady rfl

/-- C7: when at least one source fails to load and the sources that do load
yield at least one chunk, ingestion skips the failing sources, continues, and
reaches the Ready state (chain, memory and LLM set up) with the vector store
holding exactly the successful sources' chunks — the per-source failure does not
propagate to the caller. -/
theorem claim7_partial_failure (loader : String → Except String (List (List Char)))
    (s : TradingPlatformRAG) (urls : List String)
    (_hfail : ∃ u ∈ urls, ∃ e, loader u = Except.error e)
    (hchunks : split_documents 1000 200 (gather_documents loader urls) ≠ []) :
    initialize_from_url loader s urls =
      Except.ok { s with
        vector_store := some (split_documents 1000 200 (gather_documents loader urls)),
        llm := some (), memory := some ⟨[]⟩, chain := some () } := by
  have hne : (split_documents 1000 200 (gather_documents loader urls)).isEmpty = false := by
    simpa [List.isEmpty_iff] using hchunks
  rw [initialize_from_url, load_and_chunk_document]
  simp only [show ¬(200 > 1000) by omega, if_false]
  rw [build_vector_store, hne]
  simp only [Bool.false_eq_true, if_false]
  rw [setup_conversation_chain]

theorem claim7_witness :
    (∃ u ∈ ["https://good", "https://bad"], ∃ e, exLoader u = Except.error e) ∧
    split_documents 1000 200 (gather_documents exLoader ["https://good", "https://bad"]) ≠ [] ∧
    initialize_from_url exLoader (TradingPlatformRAG.make "k" "./chroma_db")
        ["https://good", "https://bad"] =
      Except.ok { TradingPlatformRAG.make "k" "./chroma_db" with
        vector_store := some ["hello world".toList],
        llm := some (), memory := some ⟨[]⟩, chain := some () } := by
  have hfail : ∃ u ∈ ["https://good", "https://bad"], ∃ e, exLoader u = Except.error e := by
    refine ⟨"https://bad", by simp, "fetch failed", rfl⟩
  have hchunks : split_documents 1000 200
      (gather_documents exLoader ["https://good", "https://bad"]) ≠ [] := by decide
  have hmain := claim7_partial_failure exLoader (TradingPlatformRAG.make "k" "./chroma_db")
    ["https://good", "https://bad"] hfail hchunks
  have hc : split_documents 1000 200
      (gather_documents exLoader ["https://good", "https://bad"]) =
      ["hello world".toList] := by decide
  rw [hc] at hmain
  exact ⟨hfail, hchunks, hmain⟩

/-- C8 counterexample: an ingestion in which every source fails to load fails
with the vector-store library's `ValueError` (empty upsert), not with
`EmptyCorpusError` (no such class exists in the repository). -/
theorem claim8_counterexample :
    errOf (initialize_from_url (fun _ => Except.error "HTTP 404")
        (TradingPlatformRAG.make "k" "./chroma_db") ["https://bad"]) =
      some (PyError.valueError "Expected IDs to be a non-empty list, got 0 IDs") ∧
    errOf (initialize_from_url (fun _ => Except.error "HTTP 404")
        (TradingPlatformRAG.make "k" "./chroma_db") ["https://bad"]) ≠
      some PyError.emptyCorpusError :=
  ⟨rfl, by decide⟩

/-- C8 (amended): when zero sources are supplied, or every supplied source fails
to load, ingestion fails — with the `ValueError` the vector-store stack raises
on an empty batch, not with an `EmptyCorpusError` — and the pipeline does not
reach the Ready state (the call returns no state at all). -/
theorem claim8_amended (loader : String → Except String (List (List Char)))
    (s : TradingPlatformRAG) (urls : List String)
    (h : urls = [] ∨ ∀ u ∈ urls, ∃ e, loader u = Except.error e) :
    initialize_from_url loader s urls =
      Except.error (PyError.valueError "Expected IDs to be a non-empty list, got 0 IDs") := by
  have hg : gather_documents loader urls = [] := by
    rcases h with h | h
    · rw [h]; rfl
    · exact gather_documents_nil loader urls h
  rw [initialize_from_url, load_and_chunk_document, hg]
  simp only [show ¬(200 > 1000) by omega, if_false]
  rw [build_vector_store]
  simp [split_documents]

theorem claim8_witness :
    (["https://bad"] = ([] : List String) ∨
      ∀ u ∈ ["https://bad"], ∃ e, (fun (_ : String) => Except.error (α := List (List Char)) "HTTP 404") u = Except.error e) ∧
    initialize_from_url (fun _ => Except.error "HTTP 404")
        (TradingPlatformRAG.make "k" "./chroma_db") ["https://bad"] =
      Except.error (PyError.valueError "Expected IDs to be a non-empty list, got 0 IDs") :=
  ⟨Or.inr (fun _ _ => ⟨"HTTP 404", rfl⟩),
    claim8_amended (fun _ => Except.error "HTTP 404")
      (TradingPlatformRAG.make "k" "./chroma_db") ["https://bad"]
      (Or.inr (fun _ _ => ⟨"HTTP 404", rfl⟩))⟩

/-- C9: when retrieval returns no chunks, the query operation still builds the
prompt (with an empty context section) and returns the chat model's answer —
it does not raise. -/
theorem claim9_empty_retrieval (sim : List Char → String → ℚ)
    (chat : List Char → String) (s : SingleURLRAG) (q : String) (r : Retriever)
    (hr : s.retriever = some r)
    (hempty : similarity_search sim r.store r.k q = []) :
    SingleURLRAG.query sim chat s q =
      Except.ok (chat (qa_prompt_format (contextOf []) q), s) := by
  rw [SingleURLRAG.query, hr]
  simp only [hempty]

theorem claim9_witness :
    exSingleEmptyStore.retriever = some ⟨[], 3⟩ ∧
    similarity_search exSim ([] : List (List Char)) 3 "hi" = [] ∧
    SingleURLRAG.query exSim exChat exSingleEmptyStore "hi" =
      Except.ok (exChat (qa_prompt_format (contextOf []) "hi"), exSingleEmptyStore) :=
  ⟨rfl, rfl, claim9_empty_retrieval exSim exChat exSingleEmptyStore "hi" ⟨[], 3⟩ rfl rfl⟩

/-- C10: a successful query leaves the ingested state unchanged — documents,
chunks, vector-store contents, retriever and prompt configuration are all
exactly what they were before the call (queries are read-only with respect to
the index; in fact the whole object is unchanged). -/
theorem claim10_query_frame (sim : List Char → String → ℚ)
    (chat : List Char → String) (s : SingleURLRAG) (q a : String) (s' : SingleURLRAG)
    (h : SingleURLRAG.query sim chat s q = Except.ok (a, s')) :
    s'.documents = s.documents ∧ s'.chunks = s.chunks ∧
    s'.vector_store = s.vector_store ∧ s'.retriever = s.retriever ∧
    s'.qa_prompt = s.qa_prompt ∧ s' = s := by
  cases hr : s.retriever with
  | none => rw [SingleURLRAG.query, hr] at h; cases h
  | some r =>
    rw [SingleURLRAG.query, hr] at h
    have hs : s' = s := by
      cases h
      rfl
    subst hs
    exact ⟨rfl, rfl, rfl, hr, rfl, rfl⟩

theorem claim10_witness :
    exSingleReady.documents = exSingleReady.documents ∧
    exSingleReady.chunks = exSingleReady.chunks ∧
    exSingleReady.vector_store = exSingleReady.vector_store ∧
    exSingleReady.retriever = exSingleReady.retriever ∧
    exSingleReady.qa_prompt = exSingleReady.qa_prompt ∧
    exSingleReady = exSingleReady :=
  claim10_query_frame exSim exChat exSingleReady "hi" "llm answer" exSingleReady rfl

example : split_text 2 0 "aa bb".toList = ["aa".toList, "b".toList, "b".toList] := by decide

example : split_text 1000 200 " hi".toList = ["hi".toList] := by decide

example : split_text 5 5 "abcdefgh".toList =
    ["abcde".toList, "bcdef".toList, "cdefg".toList, "defgh".toList] := by decide

example : split_text 1000 200 "hello".toList = ["hello".toList] := by decide

example : split_text 7 2 "aaa\n\nbbb ccc".toList =
    ["aaa".toList, "bbb".toList, "ccc".toList] := by decide

example : split_text 12 2 "aaa\n\nbbb ccc".toList =
    ["aaa\n\nbbb ccc".toList] := by decide

end RagRepo
